import Mathlib

/-!
Verification of the thor repository core against its specification.

Two source files are embedded:
  - src/vm/statedb/statedb.go : the EVM-facing state facade (StateDB);
  - src/cmd/thor/client.go    : the consent loop and the pack loop.

External collaborators that are not part of the source tree (the stacked
journal `stackedmap.StackedMap`, the underlying `State`, the chain store,
the consenter and the packer) are modelled from the specification; each
such definition carries a doc comment starting with `Modelled from the
spec:`.  Go big integers (`*big.Int`) are modelled as references into an
append-only heap, so that statements about freshly-allocated versus
mutated-in-place integers are expressible.
-/

namespace Thor

abbrev Addr := Nat
abbrev Hash := Nat

/-- Log represents a contract log event (statedb.go, type Log). -/
structure Log where
  address : Addr
  topics : List Nat
  data : List Nat
deriving DecidableEq

/-- Journal key shapes, one per key type in statedb.go lines 23-26
(suicideFlagKey, preimageKey, refundKey, logKey). -/
inductive SKey where
  | suicideFlagKey (addr : Addr)
  | refundKey
  | preimageKey (hash : Hash)
  | logKey
deriving DecidableEq

/-- Journal values.  A refund value is a reference (`intVal`) into the
big-integer heap, mirroring that Go stores a `*big.Int` pointer. -/
inductive SVal where
  | boolVal (b : Bool)
  | intVal (ref : Nat)
  | bytesVal (bs : List Nat)
  | logVal (l : Log)
deriving DecidableEq

/-- Append-only heap of big integers; a `Nat` reference plays the role of a
`*big.Int` pointer.  Allocation appends; nothing in the embedded code ever
writes an existing cell. -/
structure Heap where
  cells : List Int
deriving DecidableEq

def Heap.read (h : Heap) (r : Nat) : Int := h.cells.getD r 0

def Heap.alloc (h : Heap) (v : Int) : Heap × Nat :=
  (⟨h.cells ++ [v]⟩, h.cells.length)

/-- One journal frame: the puts recorded at that stack level, in insertion
order (a later put for the same key shadows an earlier one on lookup). -/
abbrev Frame := List (SKey × SVal)

/-- Modelled from the spec (§4.1 Stacked Journal): a stack of frames with a
base frame at the bottom that is never popped (spec: insertion into the
empty-depth base frame is permitted).  The head of `stack` is the top
frame. -/
structure StackedMap where
  stack : List Frame
deriving DecidableEq

/-- Last binding for a key inside one frame (a later put shadows an earlier
one). -/
def frameGet (f : Frame) (k : SKey) : Option SVal :=
  (f.reverse.find? (fun e => decide (e.1 = k))).map (fun e => e.2)

def stackGet : List Frame → SKey → Option SVal
  | [], _ => none
  | f :: rest, k =>
    match frameGet f k with
    | some v => some v
    | none => stackGet rest k

/-- Modelled from the spec (§4.1): `get` finds the topmost-frame binding.
The default-getter of statedb.go lines 30-42 is applied at each facade
method (the key type fixes which default applies), so the raw lookup
returns an `Option`. -/
def StackedMap.Get (sm : StackedMap) (k : SKey) : Option SVal :=
  stackGet sm.stack k

/-- Modelled from the spec (§4.1): `put` writes into the topmost frame. -/
def StackedMap.Put (sm : StackedMap) (k : SKey) (v : SVal) : StackedMap :=
  match sm.stack with
  | [] => ⟨[[(k, v)]]⟩
  | f :: rest => ⟨(f ++ [(k, v)]) :: rest⟩

/-- Modelled from the spec (§3, §4.1): depth counts the pushed frames (the
base frame does not count). -/
def StackedMap.Depth (sm : StackedMap) : Nat := sm.stack.length - 1

/-- Modelled from the spec: `push` opens a new empty frame and returns the
revision token used by `snapshot` — the depth before the push.  This is
the reading under which `revert_to_snapshot`'s `n = depth - rev` collapses
exactly the frame opened by the matching snapshot, as required by spec §8
property 3 and scenario S2. -/
def StackedMap.Push (sm : StackedMap) : StackedMap × Nat :=
  (⟨[] :: sm.stack⟩, sm.stack.length - 1)

/-- Modelled from the spec (§4.1): `pop_to d` discards all frames above
depth `d`, keeping the base frame and the bottom `d` pushed frames.  The
facade guards `d ≤ depth` before calling. -/
def StackedMap.PopTo (sm : StackedMap) (d : Nat) : StackedMap :=
  ⟨sm.stack.drop (sm.stack.length - (d + 1))⟩

/-- Modelled from the spec (§4.1): the journal traversal enumerates the
recorded puts of all frames, bottom frame first, in insertion order.
Each put of a log or preimage occupies its own slot (spec §3: log entries
are keyed by a fresh singleton), so no put is skipped. -/
def StackedMap.entries (sm : StackedMap) : List (SKey × SVal) :=
  sm.stack.reverse.foldr (fun f acc => f ++ acc) []

/-- Per-account data of the underlying state. -/
structure AccountData where
  balance : Int
  code : List Nat
  storage : List (Hash × Hash)
deriving DecidableEq

def AccountData.empty : AccountData := ⟨0, [], []⟩

/-- Modelled from the spec (§6 State creator): the account map of the
underlying state, as an association list (first match wins). -/
structure WorldState where
  accounts : List (Addr × AccountData)
deriving DecidableEq

def WorldState.find (w : WorldState) (a : Addr) : Option AccountData :=
  (w.accounts.find? (fun e => decide (e.1 = a))).map (fun e => e.2)

def WorldState.update (w : WorldState) (a : Addr)
    (f : AccountData → AccountData) : WorldState :=
  ⟨(a, f ((w.find a).getD AccountData.empty)) ::
    w.accounts.filter (fun e => decide (e.1 ≠ a))⟩

def WorldState.deleteAcc (w : WorldState) (a : Addr) : WorldState :=
  ⟨w.accounts.filter (fun e => decide (e.1 ≠ a))⟩

def storGet (st : List (Hash × Hash)) (k : Hash) : Hash :=
  ((st.find? (fun e => decide (e.1 = k))).map (fun e => e.2)).getD 0

def storSet (st : List (Hash × Hash)) (k v : Hash) : List (Hash × Hash) :=
  (k, v) :: st.filter (fun e => decide (e.1 ≠ k))

/-- Modelled from the spec (§6): the underlying checkpointable State.  A
checkpoint saves the current world; `Revert` restores the most recent
saved world.  This structure honors the checkpoint contract by
construction, which is exactly the assumption named in the claims. -/
structure State where
  current : WorldState
  checkpoints : List WorldState
deriving DecidableEq

def State.NewCheckpoint (s : State) : State :=
  ⟨s.current, s.current :: s.checkpoints⟩

def State.Revert (s : State) : State :=
  match s.checkpoints with
  | [] => s
  | w :: rest => ⟨w, rest⟩

def State.GetBalance (s : State) (a : Addr) : Int :=
  ((s.current.find a).getD AccountData.empty).balance

def State.SetBalance (s : State) (a : Addr) (v : Int) : State :=
  ⟨s.current.update a (fun ac => { ac with balance := v }), s.checkpoints⟩

def State.GetCode (s : State) (a : Addr) : List Nat :=
  ((s.current.find a).getD AccountData.empty).code

def State.SetCode (s : State) (a : Addr) (c : List Nat) : State :=
  ⟨s.current.update a (fun ac => { ac with code := c }), s.checkpoints⟩

def State.GetStorage (s : State) (a : Addr) (k : Hash) : Hash :=
  storGet ((s.current.find a).getD AccountData.empty).storage k

def State.SetStorage (s : State) (a : Addr) (k v : Hash) : State :=
  ⟨s.current.update a (fun ac => { ac with storage := storSet ac.storage k v }),
   s.checkpoints⟩

def State.Exists (s : State) (a : Addr) : Bool :=
  (s.current.find a).isSome

def State.Delete (s : State) (a : Addr) : State :=
  ⟨s.current.deleteAcc a, s.checkpoints⟩

/-- Calls made on the underlying state and journal by the instrumented
facade operations, in program order. -/
inductive Event where
  | stGetBalance (a : Addr)
  | stSetBalance (a : Addr) (v : Int)
  | stRevert
  | repoPopTo (d : Int)
deriving DecidableEq

/-- StateDB is the facade of statedb.go: an underlying State plus the
journal (`repo`), plus the big-integer heap that models Go's allocation of
`*big.Int` values. -/
structure StateDB where
  state : State
  repo : StackedMap
  heap : Heap
deriving DecidableEq

/-- New (statedb.go lines 28-49): fresh journal (base frame only) over a
given state; the heap starts empty. -/
def StateDB.New (st : State) : StateDB := ⟨st, ⟨[[]]⟩, ⟨[]⟩⟩

/-- GetRefund (statedb.go lines 51-55): topmost journal binding for the
refund key, read through the heap; the default-getter's fresh zero big
integer reads as 0. -/
def StateDB.GetRefund (s : StateDB) : Int :=
  match s.repo.Get SKey.refundKey with
  | some (SVal.intVal r) => s.heap.read r
  | _ => 0

/-- GetBalance (statedb.go lines 87-90). -/
def StateDB.GetBalance (s : StateDB) (a : Addr) : Int :=
  s.state.GetBalance a

/-- SubBalance (statedb.go lines 92-99): returns immediately when
`amount.Sign() == 0`; otherwise reads the balance and stores the
difference, with no underflow check.  The event list records the
underlying-state calls made, in program order. -/
def StateDB.SubBalance (s : StateDB) (a : Addr) (amount : Int) :
    StateDB × List Event :=
  if amount = 0 then (s, [])
  else
    let balance := s.state.GetBalance a
    ({ s with state := s.state.SetBalance a (balance - amount) },
     [Event.stGetBalance a, Event.stSetBalance a (balance - amount)])

/-- AddBalance (statedb.go lines 101-108). -/
def StateDB.AddBalance (s : StateDB) (a : Addr) (amount : Int) :
    StateDB × List Event :=
  if amount = 0 then (s, [])
  else
    let balance := s.state.GetBalance a
    ({ s with state := s.state.SetBalance a (balance + amount) },
     [Event.stGetBalance a, Event.stSetBalance a (balance + amount)])

/-- GetCode (statedb.go lines 121-124). -/
def StateDB.GetCode (s : StateDB) (a : Addr) : List Nat :=
  s.state.GetCode a

/-- SetCode (statedb.go lines 131-134). -/
def StateDB.SetCode (s : StateDB) (a : Addr) (c : List Nat) : StateDB :=
  { s with state := s.state.SetCode a c }

/-- HasSuicided (statedb.go lines 136-141): the journal overlay value for
the address's suicide-flag key; the default-getter yields false. -/
def StateDB.HasSuicided (s : StateDB) (a : Addr) : Bool :=
  match s.repo.Get (SKey.suicideFlagKey a) with
  | some (SVal.boolVal b) => b
  | _ => false

/-- Suicide (statedb.go lines 143-154): returns false untouched when the
address does not exist; otherwise deletes the account in the underlying
state, sets the suicide-flag overlay, and returns true. -/
def StateDB.Suicide (s : StateDB) (a : Addr) : StateDB × Bool :=
  if s.state.Exists a then
    ({ s with
        state := s.state.Delete a,
        repo := s.repo.Put (SKey.suicideFlagKey a) (SVal.boolVal true) }, true)
  else (s, false)

/-- GetState (statedb.go lines 156-159). -/
def StateDB.GetState (s : StateDB) (a : Addr) (k : Hash) : Hash :=
  s.state.GetStorage a k

/-- SetState (statedb.go lines 161-164). -/
def StateDB.SetState (s : StateDB) (a : Addr) (k v : Hash) : StateDB :=
  { s with state := s.state.SetStorage a k v }

/-- AddRefund (statedb.go lines 176-181): reads the current total (the
default-getter's fresh zero when absent), allocates a fresh big integer
holding the sum — Go's `new(big.Int).Add(v, gas)` — and puts a reference
to it under the refund key.  The previously stored cell is not written. -/
def StateDB.AddRefund (s : StateDB) (gas : Int) : StateDB :=
  let v : Int :=
    match s.repo.Get SKey.refundKey with
    | some (SVal.intVal r) => s.heap.read r
    | _ => 0
  let p := s.heap.alloc (v + gas)
  { s with heap := p.1, repo := s.repo.Put SKey.refundKey (SVal.intVal p.2) }

/-- AddPreimage (statedb.go lines 183-186). -/
def StateDB.AddPreimage (s : StateDB) (h : Hash) (bs : List Nat) : StateDB :=
  { s with repo := s.repo.Put (SKey.preimageKey h) (SVal.bytesVal bs) }

/-- AddLog (statedb.go lines 188-191); `vmlogToLog` is value-preserving on
this model of logs. -/
def StateDB.AddLog (s : StateDB) (l : Log) : StateDB :=
  { s with repo := s.repo.Put SKey.logKey (SVal.logVal l) }

/-- Snapshot (statedb.go lines 193-198): checkpoint the underlying state,
push a journal frame, return the revision token. -/
def StateDB.Snapshot (s : StateDB) : StateDB × Nat :=
  let st := s.state.NewCheckpoint
  let p := s.repo.Push
  ({ s with state := st, repo := p.1 }, p.2)

/-- The revert loop of RevertToSnapshot (statedb.go lines 205-208): `n`
calls of `state.Revert()`, each recorded as one event. -/
def revertLoop : State → Nat → State × List Event
  | st, 0 => (st, [])
  | st, n + 1 =>
    let p := revertLoop st.Revert n
    (p.1, Event.stRevert :: p.2)

/-- RevertToSnapshot (statedb.go lines 200-210): panics (`none`) when
`rev < 0` or `rev > depth`; otherwise reverts the underlying state
`depth - rev` times and only then pops the journal to `rev`.  The event
list records the calls in program order. -/
def StateDB.RevertToSnapshot (s : StateDB) (rev : Int) :
    Option (StateDB × List Event) :=
  if rev < 0 ∨ rev > (s.repo.Depth : Int) then none
  else
    let revertCount := ((s.repo.Depth : Int) - rev).toNat
    let p := revertLoop s.state revertCount
    some ({ s with state := p.1, repo := s.repo.PopTo rev.toNat },
          p.2 ++ [Event.repoPopTo rev])

/-- Go type assertion `v.([]byte)` on a journal value; always of the bytes
shape on states built by the facade. -/
def asBytes : SVal → List Nat
  | SVal.bytesVal bs => bs
  | _ => []

/-- Go type assertion `v.(*Log)`. -/
def asLog : SVal → Log
  | SVal.logVal l => l
  | _ => ⟨0, [], []⟩

/-- GetPreimages (statedb.go lines 57-65) as the list of callback
invocations made, in traversal order: for a preimage-key entry the
callback is invoked and a false return stops the traversal; every other
entry continues the traversal without invoking the callback. -/
def preimageScan (cb : Hash → List Nat → Bool) :
    List (SKey × SVal) → List (Hash × List Nat)
  | [] => []
  | (SKey.preimageKey h, v) :: rest =>
    if cb h (asBytes v) then (h, asBytes v) :: preimageScan cb rest
    else [(h, asBytes v)]
  | _ :: rest => preimageScan cb rest

def StateDB.GetPreimages (s : StateDB) (cb : Hash → List Nat → Bool) :
    List (Hash × List Nat) :=
  preimageScan cb s.repo.entries

/-- GetLogs (statedb.go lines 67-75) as the list of callback invocations
made, in traversal order. -/
def logScan (cb : Log → Bool) : List (SKey × SVal) → List Log
  | [] => []
  | (SKey.logKey, v) :: rest =>
    if cb (asLog v) then asLog v :: logScan cb rest
    else [asLog v]
  | _ :: rest => logScan cb rest

def StateDB.GetLogs (s : StateDB) (cb : Log → Bool) : List Log :=
  logScan cb s.repo.entries

/-- Truncate a list after the first element satisfying `p` (used to state
the closed form of the stopping journal traversals). -/
def takeThrough (p : α → Bool) : List α → List α
  | [] => []
  | x :: xs => if p x then [x] else x :: takeThrough p xs

/-- The preimage-key entries of a journal entry list (with the byte payload
the traversal would hand to the callback). -/
def preimageEntry : SKey × SVal → Option (Hash × List Nat)
  | (SKey.preimageKey h, v) => some (h, asBytes v)
  | _ => none

/-- The log-key entries of a journal entry list. -/
def logEntryOf : SKey × SVal → Option Log
  | (SKey.logKey, v) => some (asLog v)
  | _ => none

/-- Well-formedness of a facade value: the journal has its base frame and
every stored big-integer reference points into the heap.  Every state the
facade builds from `StateDB.New` satisfies it. -/
def StateDB.WFb (s : StateDB) : Bool :=
  !s.repo.stack.isEmpty &&
  s.repo.stack.all (fun f => f.all (fun e =>
    match e.2 with
    | SVal.intVal r => decide (r < s.heap.cells.length)
    | _ => true))

/-- One facade mutation, as enumerated by the snapshot/revert claim:
balance, code, storage, refund, suicide, logs, preimages. -/
inductive Mutation where
  | subBal (a : Addr) (x : Int)
  | addBal (a : Addr) (x : Int)
  | setCode (a : Addr) (c : List Nat)
  | setStorage (a : Addr) (k v : Hash)
  | addRefund (g : Int)
  | suicide (a : Addr)
  | addLog (l : Log)
  | addPreimage (h : Hash) (bs : List Nat)

def applyMut (s : StateDB) : Mutation → StateDB
  | Mutation.subBal a x => (s.SubBalance a x).1
  | Mutation.addBal a x => (s.AddBalance a x).1
  | Mutation.setCode a c => s.SetCode a c
  | Mutation.setStorage a k v => s.SetState a k v
  | Mutation.addRefund g => s.AddRefund g
  | Mutation.suicide a => (s.Suicide a).1
  | Mutation.addLog l => s.AddLog l
  | Mutation.addPreimage h bs => s.AddPreimage h bs

def applyMuts (s : StateDB) (ms : List Mutation) : StateDB :=
  ms.foldl applyMut s

/-- All facade observables of `t` agree with those of `s`: balance, code,
storage, refund, suicide flags, logs, preimages (the traversal lists
determine the behavior of `GetLogs`/`GetPreimages` for every callback). -/
def restoresObservables (s t : StateDB) : Prop :=
  (∀ a, t.GetBalance a = s.GetBalance a) ∧
  (∀ a, t.GetCode a = s.GetCode a) ∧
  (∀ a k, t.GetState a k = s.GetState a k) ∧
  t.GetRefund = s.GetRefund ∧
  (∀ a, t.HasSuicided a = s.HasSuicided a) ∧
  (∀ cb, t.GetLogs cb = s.GetLogs cb) ∧
  (∀ cb, t.GetPreimages cb = s.GetPreimages cb)

/-- A concrete fresh facade over an empty world, for witnesses. -/
def StateDB0 : StateDB := StateDB.New ⟨⟨[]⟩, []⟩

/-! Embedding of the block-lifecycle loops of src/cmd/thor/client.go. -/

/-- A block, reduced to what the consent loop inspects: its header id and
number.  `blk.Header().ID()` is `blk.id`. -/
structure Block where
  id : Nat
  number : Nat
deriving DecidableEq

/-- Modelled from the spec (§6 Chain store): blocks keyed by id with the
stored on-trunk flag; `get_header` returns the NotFound sentinel (`none`)
exactly when the id is absent. -/
structure Chain where
  blocks : List (Nat × Bool)
deriving DecidableEq

def Chain.GetBlockHeader (c : Chain) (id : Nat) : Option Nat :=
  if c.blocks.any (fun e => decide (e.1 = id)) then some id else none

def Chain.AddBlock (c : Chain) (b : Block) (trunk : Bool) : Chain :=
  ⟨(b.id, trunk) :: c.blocks⟩

/-- Modelled from the spec (§6 Consenter): `consent` validates a candidate
block at a wall-clock time; `IsTrunk` is the cheaper local check used for
freshly packed blocks.  Both may return an error (opaque here). -/
structure Consensus where
  consent : Block → Nat → Except Unit Bool
  IsTrunk : Block → Except Unit Bool

/-- Externally visible actions performed by one iteration of the consent
loop, in program order. -/
inductive NodeEvent where
  | getHeader (id : Nat)
  | consentCall (id : Nat) (now : Nat)
  | isTrunkCall (id : Nat)
  | addBlock (id : Nat) (trunk : Bool)
  | broadcast (id : Nat)
  | bestBlockSignal
  | ackSend
  | logInfo
  | logWarn
deriving DecidableEq

/-- The network-block branch of `events.consent` (client.go lines
309-328): dedupe by header lookup, then consenter validation; on success
append, and if on trunk log, broadcast and attempt the non-blocking
best-block signal; on consenter error only log at warn. -/
def consentNetwork (ch : Chain) (cs : Consensus) (blk : Block) (now : Nat) :
    Chain × List NodeEvent :=
  match ch.GetBlockHeader blk.id with
  | some _ => (ch, [NodeEvent.getHeader blk.id])
  | none =>
    match cs.consent blk now with
    | Except.ok trunk =>
      if trunk then
        (ch.AddBlock blk true,
         [NodeEvent.getHeader blk.id, NodeEvent.consentCall blk.id now,
          NodeEvent.addBlock blk.id true, NodeEvent.logInfo,
          NodeEvent.broadcast blk.id, NodeEvent.bestBlockSignal])
      else
        (ch.AddBlock blk false,
         [NodeEvent.getHeader blk.id, NodeEvent.consentCall blk.id now,
          NodeEvent.addBlock blk.id false, NodeEvent.logInfo])
    | Except.error _ =>
      (ch, [NodeEvent.getHeader blk.id, NodeEvent.consentCall blk.id now,
            NodeEvent.logWarn])

/-- The packed-block branch of `events.consent` (client.go lines 329-336):
when `IsTrunk` succeeds the block is appended, broadcast if on trunk, and
one value is sent on `new_block_ack`; when `IsTrunk` returns an error the
branch does nothing further — in particular it sends no ack. -/
def consentPacked (ch : Chain) (cs : Consensus) (blk : Block) :
    Chain × List NodeEvent :=
  match cs.IsTrunk blk with
  | Except.ok trunk =>
    (ch.AddBlock blk trunk,
     NodeEvent.isTrunkCall blk.id :: NodeEvent.addBlock blk.id trunk ::
       (if trunk then [NodeEvent.broadcast blk.id, NodeEvent.ackSend]
        else [NodeEvent.ackSend]))
  | Except.error _ => (ch, [NodeEvent.isTrunkCall blk.id])

abbrev Tx := Nat

/-- Modelled from the spec (§6 error classifier): adoption outcomes, either
success (`none`) or an error that is or is not `GasLimitReached`. -/
inductive AdoptErr where
  | gasLimitReached
  | other
deriving DecidableEq

def IsGasLimitReached : Option AdoptErr → Bool
  | some AdoptErr.gasLimitReached => true
  | _ => false

/-- The adoption loop of `events.pack` (client.go lines 364-369): while the
iterator (the list) has a next transaction, call adopt on it; stop — after
the call — when the returned error is GasLimitReached.  The external
packer's adopt is modelled by the outcome `errOf i` of the i-th call; the
result is the list of transactions adopt was called on, in order. -/
def adoptLoop (errOf : Nat → Option AdoptErr) : Nat → List Tx → List Tx
  | _, [] => []
  | i, t :: ts =>
    if IsGasLimitReached (errOf i) then [t]
    else t :: adoptLoop errOf (i + 1) ts

/-- A consenter whose checks always fail, for witnesses. -/
def badConsensus : Consensus :=
  ⟨fun _ _ => Except.error (), fun _ => Except.error ()⟩

/-- A consenter that accepts everything as trunk, for witnesses. -/
def goodConsensus : Consensus :=
  ⟨fun _ _ => Except.ok true, fun _ => Except.ok true⟩

def blk0 : Block := ⟨1, 1⟩

def chain0 : Chain := ⟨[]⟩

/-- A chain that already contains block id 1, for witnesses. -/
def chain1 : Chain := ⟨[(1, true)]⟩

/-- The fresh facade after one snapshot, for witnesses. -/
def dbSnap : StateDB := (StateDB0.Snapshot).1

/-- Recognizes a chain-append event for a given block id. -/
def isAddBlockOf (id : Nat) : NodeEvent → Bool
  | NodeEvent.addBlock i _ => decide (i = id)
  | _ => false

/-- Shape invariant relating a facade value `t` reached from `s` by one
snapshot followed by facade mutations: the journal has gained exactly one
frame on top of the frames of `s`, the checkpoint stack has gained exactly
the snapshot's saved world, and the heap is an extension of the heap of
`s`. -/
def midShape (s t : StateDB) : Prop :=
  (∃ f, t.repo.stack = f :: s.repo.stack) ∧
  t.state.checkpoints = s.state.current :: s.state.checkpoints ∧
  (∃ ext, t.heap.cells = s.heap.cells ++ ext)

/-! Helper lemmas (shared across claims). -/

theorem frameGet_concat (f : Frame) (k : SKey) (v : SVal) :
    frameGet (f ++ [(k, v)]) k = some v := by
  unfold frameGet
  rw [List.reverse_append]
  simp [List.find?]

theorem Get_Put (sm : StackedMap) (k : SKey) (v : SVal) :
    (sm.Put k v).Get k = some v := by
  unfold StackedMap.Put StackedMap.Get
  cases h : sm.stack with
  | nil => simp [stackGet, frameGet, List.find?]
  | cons f rest => simp [stackGet, frameGet_concat]

theorem find?_filter_ne {α : Type} (l : List (Nat × α)) (a : Nat) :
    (l.filter (fun e => decide (e.1 ≠ a))).find? (fun e => decide (e.1 = a)) =
      none := by
  induction l with
  | nil => rfl
  | cons x xs ih =>
    by_cases h : x.1 = a <;> simp [List.filter_cons, h, ih]

theorem Exists_Delete (s : State) (a : Addr) : (s.Delete a).Exists a = false := by
  unfold State.Delete State.Exists WorldState.deleteAcc WorldState.find
  simp [find?_filter_ne]

theorem revertLoop_trace (st : State) (n : Nat) :
    (revertLoop st n).2 = List.replicate n Event.stRevert := by
  induction n generalizing st with
  | zero => rfl
  | succ m ih => simp [revertLoop, ih, List.replicate_succ]

/-- C1: evaluation of the packed-block branch at the failing input.  When
the consenter's IsTrunk returns an error, the branch sends zero values on
new_block_ack (the packer then blocks forever); the success path sends
exactly one.  The spec requires exactly one ack on every path out of the
branch, so the code contradicts the claim at this input. -/
theorem c1_packed_ack_missing :
    (consentPacked chain0 badConsensus blk0).2.count NodeEvent.ackSend = 0 ∧
    (consentPacked chain0 badConsensus blk0).2 = [NodeEvent.isTrunkCall 1] ∧
    (consentPacked chain0 goodConsensus blk0).2.count NodeEvent.ackSend = 1 := by
  decide

/-- C3: RevertToSnapshot panics exactly when the revision is negative or
exceeds the journal depth; on every non-panicking run the recorded calls
are exactly depth - rev underlying-state reverts followed by — strictly
after all of them — the single journal pop_to(rev). -/
theorem c3_revert_spec (s : StateDB) (rev : Int) :
    (s.RevertToSnapshot rev = none ↔ rev < 0 ∨ rev > (s.repo.Depth : Int)) ∧
    (∀ t tr, s.RevertToSnapshot rev = some (t, tr) →
      tr = List.replicate ((s.repo.Depth : Int) - rev).toNat Event.stRevert ++
        [Event.repoPopTo rev]) := by
  unfold StateDB.RevertToSnapshot
  by_cases h : rev < 0 ∨ rev > (s.repo.Depth : Int)
  · rw [if_pos h]
    exact ⟨⟨fun _ => h, fun _ => rfl⟩, fun t tr hc => by cases hc⟩
  · rw [if_neg h]
    refine ⟨⟨(fun hc => by cases hc), fun hc => absurd hc h⟩, fun t tr hc => ?_⟩
    simp only [Option.some.injEq, Prod.mk.injEq] at hc
    rw [← hc.2, revertLoop_trace]

/-- C4: Suicide on a non-existent address returns false and changes
nothing (the very same facade value is returned, so there is no deletion
and no journal write); on an existing address it returns true, the account
no longer exists in the underlying state, and HasSuicided subsequently
returns true. -/
theorem c4_suicide_spec (s : StateDB) (a : Addr) :
    (s.state.Exists a = false → s.Suicide a = (s, false)) ∧
    (s.state.Exists a = true →
      (s.Suicide a).2 = true ∧
      (s.Suicide a).1.state.Exists a = false ∧
      (s.Suicide a).1.HasSuicided a = true) := by
  constructor
  · intro h
    simp [StateDB.Suicide, h]
  · intro h
    refine ⟨by simp [StateDB.Suicide, h], by simp [StateDB.Suicide, h, Exists_Delete], ?_⟩
    simp [StateDB.Suicide, h, StateDB.HasSuicided, Get_Put]

theorem c4_witness :
    ((StateDB0.state.Exists 9 = false) ∧ StateDB0.Suicide 9 = (StateDB0, false)) ∧
    (((StateDB0.AddBalance 1 5).1.Suicide 1).2 = true ∧
      ((StateDB0.AddBalance 1 5).1.Suicide 1).1.HasSuicided 1 = true) := by
  refine ⟨⟨rfl, (c4_suicide_spec StateDB0 9).1 rfl⟩, ?_⟩
  have h := (c4_suicide_spec (StateDB0.AddBalance 1 5).1 1).2 rfl
  exact ⟨h.1, h.2.2⟩

/-- C6: with amount zero, SubBalance and AddBalance return the facade
unchanged and make no call at all on the underlying state (empty event
list); with nonzero amount each performs exactly one read followed by one
write storing old-balance minus (respectively plus) the amount, with no
underflow check (the difference is stored even when negative). -/
theorem c6_balance_spec (s : StateDB) (a : Addr) :
    (s.SubBalance a 0 = (s, []) ∧ s.AddBalance a 0 = (s, [])) ∧
    (∀ x : Int, x ≠ 0 →
      s.SubBalance a x =
        ({ s with state := s.state.SetBalance a (s.state.GetBalance a - x) },
         [Event.stGetBalance a,
          Event.stSetBalance a (s.state.GetBalance a - x)]) ∧
      s.AddBalance a x =
        ({ s with state := s.state.SetBalance a (s.state.GetBalance a + x) },
         [Event.stGetBalance a,
          Event.stSetBalance a (s.state.GetBalance a + x)])) := by
  refine ⟨⟨by simp [StateDB.SubBalance], by simp [StateDB.AddBalance]⟩, ?_⟩
  intro x hx
  exact ⟨by simp [StateDB.SubBalance, hx], by simp [StateDB.AddBalance, hx]⟩

theorem c6_witness :
    (StateDB0.SubBalance 1 0 = (StateDB0, []) ∧
      StateDB0.AddBalance 1 0 = (StateDB0, [])) ∧
    StateDB0.SubBalance 1 5 =
      ({ StateDB0 with
          state := StateDB0.state.SetBalance 1 (StateDB0.state.GetBalance 1 - 5) },
       [Event.stGetBalance 1,
        Event.stSetBalance 1 (StateDB0.state.GetBalance 1 - 5)]) ∧
    (StateDB0.SubBalance 1 5).1.GetBalance 1 = -5 := by
  refine ⟨(c6_balance_spec StateDB0 1).1, ((c6_balance_spec StateDB0 1).2 5 (by decide)).1, by decide⟩

/-- C9: AddRefund allocates a fresh big-integer cell holding old total
plus gas (the heap is extended, so no previously stored cell — in
particular none captured in a deeper journal frame — is written), the new
topmost total read by GetRefund equals old total plus gas, and GetRefund
yields zero when no total was ever stored. -/
theorem c9_addRefund_spec (s : StateDB) (gas : Int) :
    (s.AddRefund gas).heap.cells = s.heap.cells ++ [s.GetRefund + gas] ∧
    (∀ r, r < s.heap.cells.length →
      (s.AddRefund gas).heap.read r = s.heap.read r) ∧
    (s.AddRefund gas).GetRefund = s.GetRefund + gas ∧
    (s.repo.Get SKey.refundKey = none → s.GetRefund = 0) := by
  refine ⟨rfl, ?_, ?_, ?_⟩
  · intro r hr
    show Heap.read ⟨s.heap.cells ++ [_]⟩ r = s.heap.read r
    unfold Heap.read
    exact List.getD_append _ _ _ _ hr
  · show (s.AddRefund gas).GetRefund = s.GetRefund + gas
    unfold StateDB.AddRefund StateDB.GetRefund
    simp only [Get_Put]
    unfold Heap.alloc Heap.read
    rw [List.getD_append_right _ _ _ _ (Nat.le_refl _), Nat.sub_self]
    rfl
  · intro h
    unfold StateDB.GetRefund
    rw [h]

theorem c9_witness :
    ((StateDB0.AddRefund 3).AddRefund 5).heap.read 0 =
        (StateDB0.AddRefund 3).heap.read 0 ∧
    ((StateDB0.AddRefund 3).AddRefund 5).GetRefund =
        (StateDB0.AddRefund 3).GetRefund + 5 ∧
    StateDB0.GetRefund = 0 := by
  refine ⟨(c9_addRefund_spec (StateDB0.AddRefund 3) 5).2.1 0 (by decide),
    (c9_addRefund_spec (StateDB0.AddRefund 3) 5).2.2.1,
    (c9_addRefund_spec StateDB0 0).2.2.2 rfl⟩

theorem c3_witness :
    [Event.stRevert, Event.repoPopTo 0] =
      List.replicate ((dbSnap.repo.Depth : Int) - 0).toNat Event.stRevert ++
        [Event.repoPopTo 0] :=
  (c3_revert_spec dbSnap 0).2 StateDB0 [Event.stRevert, Event.repoPopTo 0]
    (by decide)

theorem GetBlockHeader_AddBlock_self (ch : Chain) (blk : Block) (t : Bool) :
    (ch.AddBlock blk t).GetBlockHeader blk.id = some blk.id := by
  simp [Chain.AddBlock, Chain.GetBlockHeader]

theorem consentNetwork_found (ch : Chain) (cs : Consensus) (blk : Block)
    (now : Nat) (h : (ch.GetBlockHeader blk.id).isSome = true) :
    consentNetwork ch cs blk now = (ch, [NodeEvent.getHeader blk.id]) := by
  unfold consentNetwork
  cases hh : ch.GetBlockHeader blk.id with
  | some x => rfl
  | none => rw [hh] at h; simp at h

theorem consentNetwork_notfound_calls (ch : Chain) (cs : Consensus)
    (blk : Block) (now : Nat) (h : ch.GetBlockHeader blk.id = none) :
    NodeEvent.consentCall blk.id now ∈ (consentNetwork ch cs blk now).2 := by
  unfold consentNetwork
  rw [h]
  cases hcs : cs.consent blk now with
  | ok t => cases t <;> simp
  | error e => simp

theorem consentNetwork_cases (ch : Chain) (cs : Consensus) (blk : Block)
    (now : Nat) :
    ((consentNetwork ch cs blk now).2.countP (isAddBlockOf blk.id) = 0 ∧
      (consentNetwork ch cs blk now).1 = ch) ∨
    ((consentNetwork ch cs blk now).2.countP (isAddBlockOf blk.id) = 1 ∧
      ((consentNetwork ch cs blk now).1.GetBlockHeader blk.id).isSome = true) := by
  unfold consentNetwork
  cases hh : ch.GetBlockHeader blk.id with
  | some x =>
    left
    exact ⟨by simp [List.countP_cons, isAddBlockOf], rfl⟩
  | none =>
    cases hcs : cs.consent blk now with
    | ok t =>
      right
      cases t <;>
        refine ⟨?_, ?_⟩ <;>
          simp [List.countP_cons, isAddBlockOf, GetBlockHeader_AddBlock_self]
    | error e =>
      left
      exact ⟨by simp [List.countP_cons, isAddBlockOf], rfl⟩

/-- C5: a network-delivered block whose id is already in the chain store is
dropped silently, with no consenter call (the iteration performs only the
header lookup and leaves the chain unchanged); the consenter is called
exactly when the lookup reports NotFound; and across two deliveries of the
same block — at any two wall-clock times — the block is appended to the
chain at most once. -/
theorem c5_dedup_spec (ch : Chain) (cs : Consensus) (blk : Block)
    (now now2 : Nat) :
    ((ch.GetBlockHeader blk.id).isSome = true →
      consentNetwork ch cs blk now = (ch, [NodeEvent.getHeader blk.id])) ∧
    (ch.GetBlockHeader blk.id = none →
      NodeEvent.consentCall blk.id now ∈ (consentNetwork ch cs blk now).2) ∧
    ((consentNetwork ch cs blk now).2 ++
        (consentNetwork (consentNetwork ch cs blk now).1 cs blk now2).2).countP
      (isAddBlockOf blk.id) ≤ 1 := by
  refine ⟨consentNetwork_found ch cs blk now,
    consentNetwork_notfound_calls ch cs blk now, ?_⟩
  rw [List.countP_append]
  rcases consentNetwork_cases ch cs blk now with ⟨h0, hch⟩ | ⟨h1c, hfound⟩
  · rw [h0, hch]
    rcases consentNetwork_cases ch cs blk now2 with ⟨h0b, _⟩ | ⟨h1b, _⟩
    · rw [h0b]
      omega
    · rw [h1b]
  · rw [h1c, consentNetwork_found _ cs blk now2 hfound]
    simp [List.countP_cons, isAddBlockOf]

theorem c5_witness :
    consentNetwork chain1 goodConsensus blk0 7 =
      (chain1, [NodeEvent.getHeader 1]) ∧
    NodeEvent.consentCall 1 7 ∈ (consentNetwork chain0 goodConsensus blk0 7).2 :=
  ⟨(c5_dedup_spec chain1 goodConsensus blk0 7 7).1 (by decide),
   (c5_dedup_spec chain0 goodConsensus blk0 7 7).2.1 (by decide)⟩

theorem adoptLoop_closed (errOf : Nat → Option AdoptErr) (txs : List Tx) :
    ∀ n, adoptLoop errOf n txs =
      match (List.range' n txs.length).find?
          (fun i => IsGasLimitReached (errOf i)) with
      | some i => txs.take (i - n + 1)
      | none => txs := by
  induction txs with
  | nil => intro n; rfl
  | cons t ts ih =>
    intro n
    show adoptLoop errOf n (t :: ts) = _
    rw [List.length_cons, List.range'_succ]
    by_cases h : IsGasLimitReached (errOf n) = true
    · rw [List.find?_cons_of_pos (p := fun i => IsGasLimitReached (errOf i)) _ h]
      unfold adoptLoop
      rw [if_pos h]
      simp
    · rw [List.find?_cons_of_neg (p := fun i => IsGasLimitReached (errOf i)) _ h]
      unfold adoptLoop
      rw [if_neg h, ih (n + 1)]
      cases hf : (List.range' (n + 1) ts.length).find?
          (fun i => IsGasLimitReached (errOf i)) with
      | none => rfl
      | some i =>
        have hm := List.mem_of_find?_eq_some hf
        have hge : n + 1 ≤ i := (List.mem_range'_1.mp hm).1
        have harith : i - n + 1 = (i - (n + 1) + 1) + 1 := by omega
        show t :: List.take (i - (n + 1) + 1) ts = List.take (i - n + 1) (t :: ts)
        rw [harith, List.take_succ_cons]

/-- C7: during block assembly, adopt is called once per transaction drawn
from the iterator, in iterator order: the calls made are the whole
iterator when no call reports GasLimitReached (any other error is ignored
and adoption continues), and otherwise exactly the transactions up to and
including the one whose adopt call first reported GasLimitReached. -/
theorem c7_adopt_spec (errOf : Nat → Option AdoptErr) (txs : List Tx) :
    adoptLoop errOf 0 txs =
      match (List.range txs.length).find?
          (fun i => IsGasLimitReached (errOf i)) with
      | some i => txs.take (i + 1)
      | none => txs := by
  rw [adoptLoop_closed errOf txs 0, List.range_eq_range']
  cases (List.range' 0 txs.length).find? (fun i => IsGasLimitReached (errOf i)) with
  | none => rfl
  | some i => simp

/-- C8: when the consenter rejects a network-delivered block, the
iteration logs at warn and does nothing else: the chain is returned
unchanged and the recorded actions contain no chain append, no broadcast
and no best-block signal. -/
theorem c8_consent_error_spec (ch : Chain) (cs : Consensus) (blk : Block)
    (now : Nat) (hnf : ch.GetBlockHeader blk.id = none)
    (herr : cs.consent blk now = Except.error ()) :
    consentNetwork ch cs blk now =
      (ch, [NodeEvent.getHeader blk.id, NodeEvent.consentCall blk.id now,
        NodeEvent.logWarn]) ∧
    (∀ i t, NodeEvent.addBlock i t ∉ (consentNetwork ch cs blk now).2) ∧
    (∀ i, NodeEvent.broadcast i ∉ (consentNetwork ch cs blk now).2) ∧
    NodeEvent.bestBlockSignal ∉ (consentNetwork ch cs blk now).2 := by
  have h1 : consentNetwork ch cs blk now =
      (ch, [NodeEvent.getHeader blk.id, NodeEvent.consentCall blk.id now,
        NodeEvent.logWarn]) := by
    unfold consentNetwork; rw [hnf, herr]
  refine ⟨h1, ?_, ?_, ?_⟩ <;> rw [h1] <;> simp

theorem c8_witness :
    consentNetwork chain0 badConsensus blk0 7 =
      (chain0, [NodeEvent.getHeader 1, NodeEvent.consentCall 1 7,
        NodeEvent.logWarn]) :=
  (c8_consent_error_spec chain0 badConsensus blk0 7 rfl rfl).1

theorem preimageScan_eq (cb : Hash → List Nat → Bool) :
    ∀ es : List (SKey × SVal),
      preimageScan cb es =
        takeThrough (fun e => !cb e.1 e.2) (es.filterMap preimageEntry) := by
  intro es
  induction es with
  | nil => rfl
  | cons e rest ih =>
    obtain ⟨k, v⟩ := e
    cases k with
    | preimageKey h =>
      by_cases hc : cb h (asBytes v) = true <;>
        simp [preimageScan, preimageEntry, takeThrough, hc, ih]
    | suicideFlagKey a => simpa [preimageScan, preimageEntry] using ih
    | refundKey => simpa [preimageScan, preimageEntry] using ih
    | logKey => simpa [preimageScan, preimageEntry] using ih

theorem logScan_eq (cb : Log → Bool) :
    ∀ es : List (SKey × SVal),
      logScan cb es = takeThrough (fun e => !cb e) (es.filterMap logEntryOf) := by
  intro es
  induction es with
  | nil => rfl
  | cons e rest ih =>
    obtain ⟨k, v⟩ := e
    cases k with
    | logKey =>
      by_cases hc : cb (asLog v) = true <;>
        simp [logScan, logEntryOf, takeThrough, hc, ih]
    | suicideFlagKey a => simpa [logScan, logEntryOf] using ih
    | refundKey => simpa [logScan, logEntryOf] using ih
    | preimageKey h => simpa [logScan, logEntryOf] using ih

theorem applyMut_checkpoints (t : StateDB) (m : Mutation) :
    (applyMut t m).state.checkpoints = t.state.checkpoints := by
  cases m <;>
    simp only [applyMut, StateDB.SubBalance, StateDB.AddBalance, StateDB.SetCode,
      StateDB.SetState, StateDB.AddRefund, StateDB.Suicide, StateDB.AddLog,
      StateDB.AddPreimage, State.SetBalance, State.SetCode, State.SetStorage,
      State.Delete] <;>
    split <;> rfl

theorem Put_stack (sm : StackedMap) (k : SKey) (v : SVal) (f : Frame)
    (rest : List Frame) (h : sm.stack = f :: rest) :
    (sm.Put k v).stack = (f ++ [(k, v)]) :: rest := by
  unfold StackedMap.Put
  rw [h]

theorem applyMut_stack (t : StateDB) (m : Mutation) (f : Frame)
    (rest : List Frame) (h : t.repo.stack = f :: rest) :
    ∃ f2, (applyMut t m).repo.stack = f2 :: rest := by
  cases m with
  | subBal a x =>
    refine ⟨f, ?_⟩
    simp only [applyMut, StateDB.SubBalance]
    split <;> exact h
  | addBal a x =>
    refine ⟨f, ?_⟩
    simp only [applyMut, StateDB.AddBalance]
    split <;> exact h
  | setCode a c => exact ⟨f, h⟩
  | setStorage a k v => exact ⟨f, h⟩
  | addRefund g =>
    exact ⟨f ++ [(SKey.refundKey, SVal.intVal t.heap.cells.length)],
      Put_stack _ _ _ _ _ h⟩
  | suicide a =>
    simp only [applyMut, StateDB.Suicide]
    split
    · exact ⟨f ++ [(SKey.suicideFlagKey a, SVal.boolVal true)],
        Put_stack _ _ _ _ _ h⟩
    · exact ⟨f, h⟩
  | addLog l =>
    exact ⟨f ++ [(SKey.logKey, SVal.logVal l)], Put_stack _ _ _ _ _ h⟩
  | addPreimage hh bs =>
    exact ⟨f ++ [(SKey.preimageKey hh, SVal.bytesVal bs)], Put_stack _ _ _ _ _ h⟩

theorem applyMut_heap (t : StateDB) (m : Mutation) :
    ∃ d, (applyMut t m).heap.cells = t.heap.cells ++ d := by
  cases m with
  | subBal a x =>
    refine ⟨[], ?_⟩
    simp only [applyMut, StateDB.SubBalance]
    split <;> simp
  | addBal a x =>
    refine ⟨[], ?_⟩
    simp only [applyMut, StateDB.AddBalance]
    split <;> simp
  | setCode a c => exact ⟨[], by simp [applyMut, StateDB.SetCode]⟩
  | setStorage a k v => exact ⟨[], by simp [applyMut, StateDB.SetState]⟩
  | addRefund g => exact ⟨[_], rfl⟩
  | suicide a =>
    refine ⟨[], ?_⟩
    simp only [applyMut, StateDB.Suicide]
    split <;> simp [StackedMap.Put]
  | addLog l => exact ⟨[], by simp [applyMut, StateDB.AddLog]⟩
  | addPreimage hh bs => exact ⟨[], by simp [applyMut, StateDB.AddPreimage]⟩

theorem midShape_snapshot (s : StateDB) : midShape s (s.Snapshot).1 :=
  ⟨⟨[], rfl⟩, rfl, ⟨[], (List.append_nil _).symm⟩⟩

theorem midShape_applyMut (s t : StateDB) (m : Mutation) (h : midShape s t) :
    midShape s (applyMut t m) := by
  obtain ⟨⟨f, hst⟩, hcp, ⟨ext, hhp⟩⟩ := h
  obtain ⟨f2, hf2⟩ := applyMut_stack t m f s.repo.stack hst
  obtain ⟨d, hd⟩ := applyMut_heap t m
  exact ⟨⟨f2, hf2⟩, by rw [applyMut_checkpoints, hcp],
    ⟨ext ++ d, by rw [hd, hhp, List.append_assoc]⟩⟩

theorem midShape_muts (s : StateDB) (ms : List Mutation) (t : StateDB)
    (h : midShape s t) : midShape s (applyMuts t ms) := by
  induction ms generalizing t with
  | nil => exact h
  | cons m rest ih => exact ih (applyMut t m) (midShape_applyMut s t m h)

theorem frameGet_mem (f : Frame) (k : SKey) (w : SVal)
    (h : frameGet f k = some w) : ∃ k2, (k2, w) ∈ f := by
  unfold frameGet at h
  cases hf : f.reverse.find? (fun e => decide (e.1 = k)) with
  | none => rw [hf] at h; cases h
  | some e =>
    rw [hf] at h
    have hm := List.mem_of_find?_eq_some hf
    rw [List.mem_reverse] at hm
    simp only [Option.map_some'] at h
    cases h
    exact ⟨e.1, hm⟩

theorem stackGet_mem (l : List Frame) (k : SKey) (v : SVal)
    (h : stackGet l k = some v) : ∃ fr ∈ l, ∃ k2, (k2, v) ∈ fr := by
  induction l with
  | nil => cases h
  | cons f rest ih =>
    unfold stackGet at h
    cases hf : frameGet f k with
    | some w =>
      rw [hf] at h
      obtain ⟨k2, hk⟩ := frameGet_mem f k w hf
      cases h
      exact ⟨f, List.mem_cons_self f rest, k2, hk⟩
    | none =>
      rw [hf] at h
      obtain ⟨fr, hm, hk⟩ := ih h
      exact ⟨fr, List.mem_cons_of_mem f hm, hk⟩

theorem WFb_ref_lt (s : StateDB) (hwf : s.WFb = true) (r : Nat)
    (h : s.repo.Get SKey.refundKey = some (SVal.intVal r)) :
    r < s.heap.cells.length := by
  obtain ⟨fr, hfr, k2, hk⟩ := stackGet_mem s.repo.stack _ _ h
  unfold StateDB.WFb at hwf
  rw [Bool.and_eq_true] at hwf
  have h2 := hwf.2
  rw [List.all_eq_true] at h2
  have h3 := h2 fr hfr
  rw [List.all_eq_true] at h3
  have h4 := h3 (k2, SVal.intVal r) hk
  simpa using h4

theorem WFb_stack_ne (s : StateDB) (hwf : s.WFb = true) :
    s.repo.stack.length ≠ 0 := by
  unfold StateDB.WFb at hwf
  rw [Bool.and_eq_true] at hwf
  have h1 := hwf.1
  cases hs : s.repo.stack with
  | nil => rw [hs] at h1; simp at h1
  | cons f rest => simp [hs]

/-- C2: starting from any well-formed facade, after a snapshot and an
arbitrary sequence of facade mutations (balance, code, storage, refund,
suicide, logs, preimages), reverting to the snapshot's revision succeeds
and restores every facade observable — GetBalance, GetCode, GetState,
GetRefund, HasSuicided, GetLogs, GetPreimages — to its value immediately
before the snapshot; the underlying State model honors the checkpoint
contract by construction. -/
theorem c2_snapshot_revert (s : StateDB) (hwf : s.WFb = true)
    (ms : List Mutation) :
    ∃ t tr,
      (applyMuts (s.Snapshot).1 ms).RevertToSnapshot ((s.Snapshot).2 : Int) =
        some (t, tr) ∧
      restoresObservables s t := by
  obtain ⟨⟨f, hst⟩, hcp, ⟨ext, hhp⟩⟩ :=
    midShape_muts s ms (s.Snapshot).1 (midShape_snapshot s)
  have hne := WFb_stack_ne s hwf
  have hdep : (applyMuts (s.Snapshot).1 ms).repo.Depth = s.repo.stack.length := by
    unfold StackedMap.Depth
    rw [hst]
    simp
  have hrev2 : (applyMuts (s.Snapshot).1 ms).state.Revert = s.state := by
    unfold State.Revert
    rw [hcp]
  have hg : ¬(((s.repo.stack.length - 1 : Nat) : Int) < 0 ∨
      ((s.repo.stack.length - 1 : Nat) : Int) >
        ((applyMuts (s.Snapshot).1 ms).repo.Depth : Int)) := by
    rw [hdep]
    omega
  have hcount : (((applyMuts (s.Snapshot).1 ms).repo.Depth : Int) -
      ((s.repo.stack.length - 1 : Nat) : Int)).toNat = 1 := by
    rw [hdep]
    omega
  have hpop : (applyMuts (s.Snapshot).1 ms).repo.PopTo
      (((s.repo.stack.length - 1 : Nat) : Int)).toNat = s.repo := by
    rw [Int.toNat_natCast]
    unfold StackedMap.PopTo
    rw [hst]
    have hd : (f :: s.repo.stack).length - (s.repo.stack.length - 1 + 1) = 1 := by
      simp only [List.length_cons]
      omega
    rw [hd, List.drop_one, List.tail_cons]
  have hrun : (applyMuts (s.Snapshot).1 ms).RevertToSnapshot
      ((s.repo.stack.length - 1 : Nat) : Int) =
      some (⟨s.state, s.repo, (applyMuts (s.Snapshot).1 ms).heap⟩,
        [Event.stRevert,
         Event.repoPopTo ((s.repo.stack.length - 1 : Nat) : Int)]) := by
    unfold StateDB.RevertToSnapshot
    rw [if_neg hg]
    simp only [hcount, revertLoop, hrev2, hpop, List.singleton_append]
  refine ⟨⟨s.state, s.repo, (applyMuts (s.Snapshot).1 ms).heap⟩, _, hrun, ?_⟩
  refine ⟨fun a => rfl, fun a => rfl, fun a k => rfl, ?_, fun a => rfl,
    fun cb => rfl, fun cb => rfl⟩
  show StateDB.GetRefund ⟨s.state, s.repo, (applyMuts (s.Snapshot).1 ms).heap⟩ =
    s.GetRefund
  unfold StateDB.GetRefund
  cases hg2 : s.repo.Get SKey.refundKey with
  | none => rfl
  | some v =>
    cases v with
    | boolVal b => rfl
    | bytesVal bs => rfl
    | logVal l => rfl
    | intVal r =>
      have hlt := WFb_ref_lt s hwf r hg2
      show Heap.read (applyMuts (s.Snapshot).1 ms).heap r = Heap.read s.heap r
      unfold Heap.read
      rw [hhp, List.getD_append _ _ _ _ hlt]

theorem c2_witness :
    ∃ t tr,
      (applyMuts (StateDB0.Snapshot).1
          [Mutation.addBal 1 100, Mutation.addRefund 3,
           Mutation.addLog ⟨1, [2], [3]⟩, Mutation.suicide 1,
           Mutation.addPreimage 5 [7], Mutation.setStorage 2 1 9,
           Mutation.setCode 2 [4], Mutation.subBal 1 40]).RevertToSnapshot
        ((StateDB0.Snapshot).2 : Int) = some (t, tr) ∧
      restoresObservables StateDB0 t :=
  c2_snapshot_revert StateDB0 rfl
    [Mutation.addBal 1 100, Mutation.addRefund 3,
     Mutation.addLog ⟨1, [2], [3]⟩, Mutation.suicide 1,
     Mutation.addPreimage 5 [7], Mutation.setStorage 2 1 9,
     Mutation.setCode 2 [4], Mutation.subBal 1 40]

/-- C10: the journal traversal of GetPreimages invokes its callback
exactly on the preimage-key entries (in order, truncated after the first
callback returning false), and GetLogs exactly on the log-key entries;
entries of every other key type are passed over with the visitor returning
true, so they neither receive a callback nor terminate the enumeration. -/
theorem c10_journal_filter_spec (s : StateDB) (cbP : Hash → List Nat → Bool)
    (cbL : Log → Bool) :
    s.GetPreimages cbP =
      takeThrough (fun e => !cbP e.1 e.2)
        (s.repo.entries.filterMap preimageEntry) ∧
    s.GetLogs cbL =
      takeThrough (fun e => !cbL e) (s.repo.entries.filterMap logEntryOf) :=
  ⟨preimageScan_eq cbP s.repo.entries, logScan_eq cbL s.repo.entries⟩

end Thor
